import Mathlib

/-!
# 2D point geometry (`Point.h`)

Shallow embedding of the `Point` class of `Point.h`.

Modelling conventions.

* A C++ `double` is read as an element of a linearly ordered field `K` with exact
  arithmetic (`K = ℚ` gives executable definitions, `K = ℝ` carries `sqrt`, `cos`, `sin`).
  Rounding, overflow and underflow are outside the model.
* A floating-point division by zero yields an infinity or a NaN, which is not an element
  of the field: the quotient is `none`.  Every operation built on a division therefore
  returns an `Option`; `none` stands for "some coordinate is not a finite number".
* The `<cmath>` functions `sqrt`, `cos`, `sin` are parameters of the operations using
  them; the theorems instantiate them with `Real.sqrt`, `Real.cos`, `Real.sin`.
-/

namespace Geom2D

/-- The class `Point`: the two coordinates `x` and `y`. -/
structure Point (K : Type) where
  x : K
  y : K
  deriving DecidableEq

namespace Point

variable {K : Type} [LinearOrderedField K]

/-- The constant `EPS = 0.000001`. -/
def EPS : K := 0.000001

/-- The `<cmath>` constant `M_PI` that `main` passes to `rotate`. -/
def M_PI : K := 3.14159265358979323846

/-- The source's `operator-`: `{x - p.x, y - p.y}`. -/
def sub (a p : Point K) : Point K := ⟨a.x - p.x, a.y - p.y⟩

/-- The source's `operator+`: `{x + p.x, y + p.y}`. -/
def add (a p : Point K) : Point K := ⟨a.x + p.x, a.y + p.y⟩

/-- The source's `operator/`: `{x / c, y / c}`; `none` when `c` is zero. -/
def div (a : Point K) (c : K) : Option (Point K) :=
  if c = 0 then none else some ⟨a.x / c, a.y / c⟩

/-- The source's `norm`: `sqrt(x * x + y * y)`. -/
def norm (sqrt : K → K) (a : Point K) : K := sqrt (a.x * a.x + a.y * a.y)

/-- The source's `dot`: `x * p.x + y * p.y`. -/
def dot (a p : Point K) : K := a.x * p.x + a.y * p.y

/-- The source's `cross`: `x * p.y - y * p.x`. -/
def cross (a p : Point K) : K := a.x * p.y - a.y * p.x

/-- The source's one-argument `dist`: `(*this - p).norm()`. -/
def dist (sqrt : K → K) (a p : Point K) : K := (a.sub p).norm sqrt

/-- The source's `rotate`:
`{x * cos(theta) - y * sin(theta), x * sin(theta) + y * cos(theta)}`. -/
def rotate (cos sin : K → K) (a : Point K) (theta : K) : Point K :=
  ⟨a.x * cos theta - a.y * sin theta, a.x * sin theta + a.y * cos theta⟩

/-- The source's `midPoint`: `(*this + p) / 2`. -/
def midPoint (a p : Point K) : Option (Point K) := (a.add p).div 2

/-- The source's `operator==`: `fabs(x - p.x) < EPS && fabs(y - p.y) < EPS`. -/
def eq (a p : Point K) : Bool :=
  decide (|a.x - p.x| < EPS) && decide (|a.y - p.y| < EPS)

/-- The source's `operator<`: `x != p.x ? x < p.x : y < p.y`. -/
def lt (a p : Point K) : Bool :=
  if a.x ≠ p.x then decide (a.x < p.x) else decide (a.y < p.y)

/-- The source's `operator>`: `x != p.x ? x > p.x : y > p.y`. -/
def gt (a p : Point K) : Bool :=
  if a.x ≠ p.x then decide (a.x > p.x) else decide (a.y > p.y)

/-- The source's `operator<=`: `x != p.x ? x < p.x : y <= p.y`. -/
def le (a p : Point K) : Bool :=
  if a.x ≠ p.x then decide (a.x < p.x) else decide (a.y ≤ p.y)


/-! ## Auxiliary facts -/

theorem EPS_pos : (0 : K) < EPS := by
  unfold EPS; norm_num

/-- A point is `==` to itself (finite coordinates). -/
theorem eq_self (a : Point K) : a.eq a = true := by
  simp [Point.eq, EPS_pos]

/-- The demonstration call `p1.rotate(M_PI)` is robust against the angle being only an
approximation of π: any angle within `5e-7` of π sends `(1,1)` to a point `==` to `(-1,-1)`. -/
theorem rotate_near_pi (theta : ℝ) (h : |theta - Real.pi| ≤ 0.0000005) :
    ((Point.mk (1:ℝ) 1).rotate Real.cos Real.sin theta).eq ⟨-1, -1⟩ = true := by
  obtain ⟨d, rfl⟩ : ∃ d, theta = Real.pi - d := ⟨Real.pi - theta, by ring⟩
  have hd : |d| ≤ 0.0000005 := by
    have : Real.pi - d - Real.pi = -d := by ring
    rwa [this, abs_neg] at h
  have hs := abs_le.mp ((Real.abs_sin_le_abs (x := d)).trans hd)
  have hc1 := Real.cos_le_one d
  have hc2 := Real.one_sub_sq_div_two_le_cos (x := d)
  have hdd : d ^ 2 ≤ 0.0000005 ^ 2 := by
    have := abs_le.mp hd
    nlinarith [this.1, this.2]
  simp only [Point.eq, rotate, EPS, Real.cos_pi_sub, Real.sin_pi_sub, Bool.and_eq_true,
    decide_eq_true_eq, abs_lt]
  norm_num at hs hdd ⊢
  refine ⟨⟨?_, ?_⟩, ?_, ?_⟩ <;> linarith [hs.1, hs.2]

/-- The demonstration call of `main`: `Point(1,1).rotate(M_PI) == Point(-1,-1)`. -/
theorem rotate_M_PI :
    ((Point.mk (1:ℝ) 1).rotate Real.cos Real.sin M_PI).eq ⟨-1, -1⟩ = true := by
  apply rotate_near_pi
  have h1 := Real.pi_gt_d20
  have h2 := Real.pi_lt_d20
  rw [abs_le]
  unfold M_PI
  constructor <;> norm_num at h1 h2 ⊢ <;> linarith

/-! ## Projection, reflection, distance to a line -/

/-- C11: for all points `a` and `b`, the dot product is symmetric and the 2D cross product
is antisymmetric: `a.dot(b) = b.dot(a)` and `a.cross(b) = -b.cross(a)`. -/
theorem dot_comm_cross_antisymm (a b : Point K) :
    a.dot b = b.dot a ∧ a.cross b = -(b.cross a) := by
  simp only [dot, cross]
  constructor <;> ring

/-- C12: for all points `a` and `b`, `a == b` is true iff `|a.x - b.x| < 1e-6` and
`|a.y - b.y| < 1e-6` (both strict); in particular `Point(1,1) == Point(1+0.0000001, 1)` is
true and `Point(1,1) == Point(1.1,1)` is false. -/
theorem eq_iff_abs_lt :
    (∀ a b : Point K, a.eq b = true ↔
      (|a.x - b.x| < 1 / 1000000 ∧ |a.y - b.y| < 1 / 1000000)) ∧
    (Point.mk (1:K) 1).eq ⟨1 + 0.0000001, 1⟩ = true ∧
    (Point.mk (1:K) 1).eq ⟨1.1, 1⟩ = false := by
  have hE : (EPS : K) = 1 / 1000000 := by unfold EPS; norm_num
  refine ⟨?_, ?_, ?_⟩
  · intro a b
    simp only [Point.eq, hE, Bool.and_eq_true, decide_eq_true_eq]
  · simp only [Point.eq, hE, Bool.and_eq_true, decide_eq_true_eq, abs_lt]
    norm_num
  · simp only [Point.eq, hE, Bool.and_eq_false_imp, decide_eq_true_eq, decide_eq_false_iff_not,
      abs_lt]
    norm_num

/-- C13: `operator<` is the lexicographic order: for all points `a` and `b`, `a < b` iff
`a.x < b.x`, or `a.x = b.x` exactly and `a.y < b.y`; in particular `Point(1,2) < Point(2,1)`
and `Point(1,2) < Point(1,3)` are both true. -/
theorem lt_iff_lex :
    (∀ a b : Point K, a.lt b = true ↔ (a.x < b.x ∨ (a.x = b.x ∧ a.y < b.y))) ∧
    (Point.mk (1:K) 2).lt ⟨2, 1⟩ = true ∧
    (Point.mk (1:K) 2).lt ⟨1, 3⟩ = true := by
  have h : ∀ a b : Point K, a.lt b = true ↔ (a.x < b.x ∨ (a.x = b.x ∧ a.y < b.y)) := by
    intro a b
    unfold lt
    by_cases hx : a.x = b.x
    · simp [hx]
    · simp [hx]
  refine ⟨h, ?_, ?_⟩
  · rw [h]; left; norm_num
  · rw [h]; right; norm_num

/-- C14: the ordering is inconsistent with the approximate equality: there are points `a`
and `b` whose `x` coordinates differ by less than `EPS` such that `a == b` and `a < b` are
both true, and for the swapped pair `b > a` is true while `b == a`. -/
theorem eq_lt_inconsistent :
    ∃ a b : Point K, |a.x - b.x| < EPS ∧ a.x ≠ b.x ∧ a.eq b = true ∧ a.lt b = true ∧
      b.gt a = true ∧ b.eq a = true := by
  have hE : (EPS : K) = 1 / 1000000 := by unfold EPS; norm_num
  refine ⟨⟨1, 1⟩, ⟨1 + 0.0000001, 1⟩, ?_, ?_, ?_, ?_, ?_, ?_⟩
  · rw [hE, abs_lt]; norm_num
  · norm_num
  · simp only [Point.eq, hE, Bool.and_eq_true, decide_eq_true_eq, abs_lt]; norm_num
  · simp only [lt]; norm_num
  · simp only [gt]; norm_num
  · simp only [Point.eq, hE, Bool.and_eq_true, decide_eq_true_eq, abs_lt]; norm_num

/-- C15: the one-argument `dist` is the Euclidean distance: for all points `a` and `b`,
`a.dist(b) = sqrt((a.x - b.x)^2 + (a.y - b.y)^2) = (a - b).norm()`; in particular
`Point(0,0).dist(Point(3,4))` equals exactly `5`. -/
theorem dist_eq_euclid :
    (∀ a b : Point ℝ,
      a.dist Real.sqrt b = Real.sqrt ((a.x - b.x) ^ 2 + (a.y - b.y) ^ 2) ∧
      Real.sqrt ((a.x - b.x) ^ 2 + (a.y - b.y) ^ 2) = (a.sub b).norm Real.sqrt) ∧
    (Point.mk (0:ℝ) 0).dist Real.sqrt ⟨3, 4⟩ = 5 := by
  refine ⟨fun a b => ⟨?_, ?_⟩, ?_⟩
  · simp only [dist, norm, sub, sq]
  · simp only [norm, sub, sq]
  · simp only [dist, norm, sub]
    rw [Real.sqrt_eq_iff_mul_self_eq (by norm_num) (by norm_num)]
    norm_num

/-- C16: for all points `a` and `b`, `a.midPoint(b)` is the point
`((a.x + b.x)/2, (a.y + b.y)/2)`, i.e. `(a + b)/2`; in particular
`Point(0,0).midPoint(Point(2,4)) == Point(1,2)`. -/
theorem midPoint_eq_half_sum :
    (∀ a b : Point K,
      a.midPoint b = some ⟨(a.x + b.x) / 2, (a.y + b.y) / 2⟩ ∧
      a.midPoint b = (a.add b).div 2) ∧
    ∃ m, (Point.mk (0:K) 0).midPoint ⟨2, 4⟩ = some m ∧ m.eq ⟨1, 2⟩ = true := by
  have h : ∀ a b : Point K, a.midPoint b = some ⟨(a.x + b.x) / 2, (a.y + b.y) / 2⟩ := by
    intro a b
    simp only [midPoint, div, add]
    rw [if_neg two_ne_zero]
  refine ⟨fun a b => ⟨h a b, rfl⟩, ⟨1, 2⟩, ?_, eq_self _⟩
  rw [h]
  norm_num

/-- C17: `operator<=` follows the exact lexicographic rule, not the epsilon rule: for all
points `a` and `b`, `a <= b` iff `a < b` or the coordinates are exactly identical; hence
there are points with `a == b` true but `a <= b` false. -/
theorem le_iff_lt_or_identical :
    (∀ a b : Point K, a.le b = true ↔ (a.lt b = true ∨ (a.x = b.x ∧ a.y = b.y))) ∧
    ∃ a b : Point K, a.eq b = true ∧ a.le b = false := by
  have hE : (EPS : K) = 1 / 1000000 := by unfold EPS; norm_num
  refine ⟨fun a b => ?_, ⟨1 + 0.0000001, 1⟩, ⟨1, 1⟩, ?_, ?_⟩
  · unfold le lt
    by_cases hx : a.x = b.x
    · simp [hx, le_iff_lt_or_eq]
    · simp [hx]
  · simp only [Point.eq, hE, Bool.and_eq_true, decide_eq_true_eq, abs_lt]; norm_num
  · simp only [le]; norm_num

/-- C18: `operator<` is a strict total order and `operator>` is its converse: for all
points `a`, `b`, `c`, not `a < a`; `a < b` and `b < c` imply `a < c`; exactly one of `a < b`,
`a > b`, exact coordinate identity holds; and `a > b` iff `b < a`. -/
theorem lt_strict_total_order (a b c : Point K) :
    a.lt a = false ∧
    (a.lt b = true → b.lt c = true → a.lt c = true) ∧
    ((a.lt b = true ∧ a.gt b = false ∧ ¬ (a.x = b.x ∧ a.y = b.y)) ∨
     (a.lt b = false ∧ a.gt b = true ∧ ¬ (a.x = b.x ∧ a.y = b.y)) ∨
     (a.lt b = false ∧ a.gt b = false ∧ (a.x = b.x ∧ a.y = b.y))) ∧
    (a.gt b = true ↔ b.lt a = true) := by
  have hlt : ∀ u v : Point K, u.lt v = true ↔ (u.x < v.x ∨ (u.x = v.x ∧ u.y < v.y)) := by
    intro u v
    unfold lt
    by_cases hx : u.x = v.x
    · simp [hx]
    · simp [hx]
  have hgt : ∀ u v : Point K, u.gt v = true ↔ (v.x < u.x ∨ (u.x = v.x ∧ v.y < u.y)) := by
    intro u v
    unfold gt
    by_cases hx : u.x = v.x
    · simp [hx]
    · simp [hx]
  have hltf : ∀ u v : Point K, u.lt v = false ↔ ¬ (u.x < v.x ∨ (u.x = v.x ∧ u.y < v.y)) := by
    intro u v
    rw [← hlt, Bool.not_eq_true]
  have hgtf : ∀ u v : Point K, u.gt v = false ↔ ¬ (v.x < u.x ∨ (u.x = v.x ∧ v.y < u.y)) := by
    intro u v
    rw [← hgt, Bool.not_eq_true]
  refine ⟨?_, ?_, ?_, ?_⟩
  · rw [hltf]
    rintro (h | ⟨-, h⟩) <;> exact lt_irrefl _ h
  · rw [hlt, hlt, hlt]
    rintro (h1 | ⟨e1, h1⟩) (h2 | ⟨e2, h2⟩)
    · exact Or.inl (h1.trans h2)
    · exact Or.inl (e2 ▸ h1)
    · exact Or.inl (e1 ▸ h2)
    · exact Or.inr ⟨e1.trans e2, h1.trans h2⟩
  · rw [hlt, hgt, hltf, hgtf]
    rcases lt_trichotomy a.x b.x with hx | hx | hx
    · left
      exact ⟨Or.inl hx, by rintro (h | ⟨e, -⟩) <;> [exact lt_asymm hx h; exact hx.ne e],
        fun e => hx.ne e.1⟩
    · rcases lt_trichotomy a.y b.y with hy | hy | hy
      · left
        exact ⟨Or.inr ⟨hx, hy⟩,
          by rintro (h | ⟨-, h⟩) <;> [exact (hx ▸ h).false; exact lt_asymm hy h],
          fun e => hy.ne e.2⟩
      · right; right
        exact ⟨by rintro (h | ⟨-, h⟩) <;> [exact (hx ▸ h).false; exact (hy ▸ h).false],
          by rintro (h | ⟨-, h⟩) <;> [exact (hx ▸ h).false; exact (hy ▸ h).false],
          hx, hy⟩
      · right; left
        exact ⟨by rintro (h | ⟨-, h⟩) <;> [exact (hx ▸ h).false; exact lt_asymm hy h],
          Or.inr ⟨hx, hy⟩, fun e => hy.ne' e.2⟩
    · right; left
      exact ⟨by rintro (h | ⟨e, -⟩) <;> [exact lt_asymm hx h; exact hx.ne' e],
        Or.inl hx, fun e => hx.ne' e.1⟩
  · rw [hgt, hlt]
    constructor
    · rintro (h | ⟨e, h⟩)
      · exact Or.inl h
      · exact Or.inr ⟨e.symm, h⟩
    · rintro (h | ⟨e, h⟩)
      · exact Or.inl h
      · exact Or.inr ⟨e.symm, h⟩

end Point

end Geom2D
